import Mathlib

/-!
# Frozen mutation codec (`frozen_mutation.cc`)

A shallow embedding of the frozen-mutation envelope and of the streaming
freezer.  The functions of `frozen_mutation.cc` are embedded from the source;
the serializer layer they call (`ser::writer_of_mutation`, `ser::mutation_view`,
`mutation_partition_serializer`, `mutation_partition_view`, `partition_builder`,
`serialize_mutation_fragments`, `range_tombstone_list`) lives in headers that
are not part of the source tree at hand and is modelled from the wire layout
and component contracts of the specification; every such definition says so.
-/

namespace Scylla

/-! ## Data model -/

/-- Modelled from the spec: the byte string type `bytes` (declared in a header outside the source tree). -/
abbrev bytes := List UInt8

/-- Modelled from the spec: the error taxonomy of the codec (section 7). -/
inductive error where
  | truncated
  | malformed
  | schema_mismatch
deriving DecidableEq, Repr

/-- Modelled from the spec: the 16-byte identifier `utils::UUID`, as two 64-bit halves. -/
structure UUID where
  most_sig_bits : UInt64
  least_sig_bits : UInt64
deriving DecidableEq, Repr

/-- Modelled from the spec: the type `partition_key`, held in its serialized representation. -/
abbrev partition_key := bytes

/-- Modelled from the spec: the column identifier, a `u32` on the wire. -/
abbrev column_id := UInt32

/-- Modelled from the spec: the type `tombstone`, a deletion marker
`{timestamp, deletion_time}`.  The source passes it by value; the absent
tombstone is the sentinel value with both fields at MAX. -/
structure tombstone where
  timestamp : UInt64
  deletion_time : UInt64
deriving DecidableEq, Repr

/-- Modelled from the spec: the default-constructed (absent) tombstone, both
fields at MAX. -/
def tombstone.absent : tombstone := ⟨UInt64.ofNat (2 ^ 64 - 1), UInt64.ofNat (2 ^ 64 - 1)⟩

/-- Modelled from the spec: the type `bound_kind` of a range-tombstone bound. -/
inductive bound_kind where
  | inclusive_start
  | exclusive_start
  | inclusive_end
  | exclusive_end
deriving DecidableEq, Repr

/-- Modelled from the spec: the three cell kinds the partition serializer
dispatches on. -/
inductive cell_kind where
  | live_atomic
  | dead_atomic
  | live_collection
deriving DecidableEq, Repr

/-- Modelled from the spec: a cell, its kind and its kind-specific payload.
The payload is not interpreted by this codec; it is carried as length-prefixed
bytes. -/
structure cell where
  kind : cell_kind
  payload : bytes
deriving DecidableEq, Repr

/-- Modelled from the spec: the type `row`, the `(column_id, cell)` entries of a
row. -/
abbrev row := List (column_id × cell)

/-- Modelled from the spec: the type `static_row`, the static-row fragment. -/
structure static_row where
  cells : row
deriving DecidableEq, Repr

/-- Modelled from the spec: the type `clustering_row`,
`{clustering_key, row_marker, row_tombstone, cells}`.  The specification names
the row marker without giving its fields; it is carried as length-prefixed
bytes. -/
structure clustering_row where
  key : bytes
  marker : bytes
  tomb : tombstone
  cells : row
deriving DecidableEq, Repr

/-- Modelled from the spec: a bound of a range tombstone, clustering key and
kind. -/
structure bound where
  key : bytes
  kind : bound_kind
deriving DecidableEq, Repr

/-- Modelled from the spec: the type `range_tombstone`,
`{start_bound, end_bound, tombstone}`. -/
structure range_tombstone where
  start_bound : bound
  end_bound : bound
  tomb : tombstone
deriving DecidableEq, Repr

/-- Modelled from the spec: the type `range_tombstone_begin`, with the accessors
`key()`, `kind()` and `tomb()` the source calls. -/
structure range_tombstone_begin where
  key : bytes
  kind : bound_kind
  tomb : tombstone
deriving DecidableEq, Repr

/-- Modelled from the spec: the type `range_tombstone_end`, with the accessors
`key()` and `kind()` the source calls. -/
structure range_tombstone_end where
  key : bytes
  kind : bound_kind
deriving DecidableEq, Repr

/-- Modelled from the spec: the type `schema`, with `id()`, `version()`, the
columns known by id and the clustering comparator (as a strict "sorts before"
test). -/
structure schema where
  id : UUID
  version : UUID
  columns : List column_id
  clustering_less : bytes → bytes → Bool

/-- Modelled from the spec: the type `mutation_partition`, the live partition:
partition tombstone, optional static row, range tombstones and clustering rows,
each sequence in its stored order. -/
structure mutation_partition where
  partition_tombstone : tombstone
  static_row : Option row
  row_tombstones : List range_tombstone
  rows : List clustering_row
deriving DecidableEq, Repr

/-- Modelled from the spec: the empty partition a newly constructed mutation
holds. -/
def mutation_partition.empty : mutation_partition := ⟨tombstone.absent, none, [], []⟩

/-- Modelled from the spec: the type `mutation`, with the accessors `schema()`,
`key()` and `partition()` the source calls. -/
structure mutation where
  schema : schema
  key : partition_key
  partition : mutation_partition

/-- The class `frozen_mutation`: the byte buffer `_bytes` and the cached key
`_pk`, the two members the source initialises. -/
structure frozen_mutation where
  _bytes : bytes
  _pk : partition_key
deriving DecidableEq, Repr

/-! ## Byte-stream primitives -/

/-- Modelled from the spec: `write_fixed`, the little-endian encoding of the low
`n` bytes of `v`. -/
def write_fixed : Nat → Nat → bytes
  | 0, _ => []
  | n + 1, v => UInt8.ofNat (v % 256) :: write_fixed n (v / 256)

/-- Modelled from the spec: the little-endian value of a byte string. -/
def from_le : bytes → Nat
  | [] => 0
  | b :: bs => b.toNat + 256 * from_le bs

/-- Modelled from the spec: `input_cursor`, the view `{ptr, remaining}` over a
borrowed buffer: `data` is the window still readable, `pos` the index in the
buffer of its first byte. -/
structure input_cursor where
  data : bytes
  pos : Nat
deriving DecidableEq, Repr

/-- Modelled from the spec: the outcome of a read, a value and the advanced
cursor, or an error together
with the position the cursor had reached.  Reads are sequential, so every byte
that was read lies strictly below the position reported on failure. -/
inductive read_result (α : Type) where
  | ok (a : α) (c : input_cursor)
  | fail (e : error) (pos : Nat)
deriving Repr

/-- Modelled from the spec: the caller-visible result of a read, without the
cursor. -/
def read_result.to_except {α : Type} : read_result α → Except error α
  | .ok a _ => .ok a
  | .fail e _ => .error e

/-- Modelled from the spec: `ser::as_input_stream`, a cursor over a whole
buffer. -/
def as_input_stream (b : bytes) : input_cursor := ⟨b, 0⟩

/-- Modelled from the spec: the check-and-advance read of `n` raw bytes; a read
past the end is `truncated` and consumes nothing. -/
def input_cursor.read (c : input_cursor) (n : Nat) : read_result bytes :=
  if n ≤ c.data.length then .ok (c.data.take n) ⟨c.data.drop n, c.pos + n⟩
  else .fail .truncated c.pos

/-- Modelled from the spec: `read_fixed`, an `n`-byte little-endian integer. -/
def read_fixed (n : Nat) (c : input_cursor) : read_result Nat :=
  match c.read n with
  | .ok bs c1 => .ok (from_le bs) c1
  | .fail e p => .fail e p

/-- Modelled from the spec: `write_blob`, a 4-byte length then the raw bytes. -/
def write_blob (b : bytes) : bytes := write_fixed 4 b.length ++ b

/-- Modelled from the spec: `read_blob`. -/
def read_blob (c : input_cursor) : read_result bytes :=
  match read_fixed 4 c with
  | .ok len c1 => c1.read len
  | .fail e p => .fail e p

/-- Modelled from the spec: `write_frame`, the 4-byte length of the enclosed
region, then the region. -/
def write_frame (body : bytes) : bytes := write_fixed 4 body.length ++ body

/-- Modelled from the spec: `read_frame`; the result is a cursor over the
enclosed region, and the outer cursor skips past it.  A declared length that exceeds the
remaining bytes is `truncated`. -/
def read_frame (c : input_cursor) : read_result input_cursor :=
  match read_fixed 4 c with
  | .ok len c1 =>
    if len ≤ c1.data.length then .ok ⟨c1.data.take len, c1.pos⟩ ⟨c1.data.drop len, c1.pos + len⟩
    else .fail .truncated c1.pos
  | .fail e p => .fail e p

/-- Modelled from the spec: a nested list, `u32 count` followed by the
elements. -/
def write_list {α : Type} (w : α → bytes) (xs : List α) : bytes :=
  write_fixed 4 xs.length ++ (xs.map w).flatten

/-- Modelled from the spec: read `n` elements with the element reader `r`. -/
def read_n {α : Type} (r : input_cursor → read_result α) : Nat → input_cursor → read_result (List α)
  | 0, c => .ok [] c
  | n + 1, c =>
    match r c with
    | .ok a c1 =>
      match read_n r n c1 with
      | .ok as c2 => .ok (a :: as) c2
      | .fail e p => .fail e p
    | .fail e p => .fail e p

/-- Modelled from the spec: read a nested list, the count then that many
elements. -/
def read_list {α : Type} (r : input_cursor → read_result α) (c : input_cursor) : read_result (List α) :=
  match read_fixed 4 c with
  | .ok n c1 => read_n r n c1
  | .fail e p => .fail e p

/-! ## Wire layout of the sub-structures -/

/-- Modelled from the spec: skip `n` bytes, with the same check as a read. -/
def input_cursor.skip (c : input_cursor) (n : Nat) : read_result Unit :=
  match c.read n with
  | .ok _ c1 => .ok () c1
  | .fail e p => .fail e p

/-- Modelled from the spec: a uuid on the wire, 16 bytes. -/
def write_uuid (u : UUID) : bytes :=
  write_fixed 8 u.most_sig_bits.toNat ++ write_fixed 8 u.least_sig_bits.toNat

/-- Modelled from the spec: read a uuid. -/
def read_uuid (c : input_cursor) : read_result UUID :=
  match read_fixed 8 c with
  | .ok hi c1 =>
    match read_fixed 8 c1 with
    | .ok lo c2 => .ok ⟨UInt64.ofNat hi, UInt64.ofNat lo⟩ c2
    | .fail e p => .fail e p
  | .fail e p => .fail e p

/-- Modelled from the spec: `tombstone := u64 timestamp | u64 deletion_time`. -/
def write_tombstone (t : tombstone) : bytes :=
  write_fixed 8 t.timestamp.toNat ++ write_fixed 8 t.deletion_time.toNat

/-- Modelled from the spec: read a tombstone. -/
def read_tombstone (c : input_cursor) : read_result tombstone :=
  match read_fixed 8 c with
  | .ok ts c1 =>
    match read_fixed 8 c1 with
    | .ok dt c2 => .ok ⟨UInt64.ofNat ts, UInt64.ofNat dt⟩ c2
    | .fail e p => .fail e p
  | .fail e p => .fail e p

/-- Modelled from the spec: the `u8 kind` of a bound. -/
def bound_kind.tag : bound_kind → Nat
  | .inclusive_start => 0
  | .exclusive_start => 1
  | .inclusive_end => 2
  | .exclusive_end => 3

/-- Modelled from the spec: the bound kind of a tag byte, if in range. -/
def bound_kind.of_tag : Nat → Option bound_kind
  | 0 => some .inclusive_start
  | 1 => some .exclusive_start
  | 2 => some .inclusive_end
  | 3 => some .exclusive_end
  | _ => none

/-- Modelled from the spec: `bound := blob clustering-key | u8 kind`. -/
def write_bound (b : bound) : bytes := write_blob b.key ++ write_fixed 1 b.kind.tag

/-- Modelled from the spec: read a bound; a tag byte out of range is
`malformed`. -/
def read_bound (c : input_cursor) : read_result bound :=
  match read_blob c with
  | .ok k c1 =>
    match read_fixed 1 c1 with
    | .ok t c2 =>
      match bound_kind.of_tag t with
      | some kd => .ok ⟨k, kd⟩ c2
      | none => .fail .malformed c2.pos
    | .fail e p => .fail e p
  | .fail e p => .fail e p

/-- Modelled from the spec: `range_tombstone := bound start | bound end | tombstone`. -/
def write_range_tombstone (rt : range_tombstone) : bytes :=
  write_bound rt.start_bound ++ write_bound rt.end_bound ++ write_tombstone rt.tomb

/-- Modelled from the spec: read a range tombstone. -/
def read_range_tombstone (c : input_cursor) : read_result range_tombstone :=
  match read_bound c with
  | .ok s c1 =>
    match read_bound c1 with
    | .ok e c2 =>
      match read_tombstone c2 with
      | .ok t c3 => .ok ⟨s, e, t⟩ c3
      | .fail e p => .fail e p
    | .fail e p => .fail e p
  | .fail e p => .fail e p

/-- Modelled from the spec: the `u8 kind` of a cell. -/
def cell_kind.tag : cell_kind → Nat
  | .live_atomic => 0
  | .dead_atomic => 1
  | .live_collection => 2

/-- Modelled from the spec: the cell kind of a tag byte, if in range. -/
def cell_kind.of_tag : Nat → Option cell_kind
  | 0 => some .live_atomic
  | 1 => some .dead_atomic
  | 2 => some .live_collection
  | _ => none

/-- Modelled from the spec: `cell := u8 kind | kind-specific payload`, the
payload as length-prefixed bytes. -/
def write_cell (c : cell) : bytes := write_fixed 1 c.kind.tag ++ write_blob c.payload

/-- Modelled from the spec: read a cell; a tag byte out of range is
`malformed`. -/
def read_cell (c : input_cursor) : read_result cell :=
  match read_fixed 1 c with
  | .ok t c1 =>
    match cell_kind.of_tag t with
    | some kd =>
      match read_blob c1 with
      | .ok pl c2 => .ok ⟨kd, pl⟩ c2
      | .fail e p => .fail e p
    | none => .fail .malformed c1.pos
  | .fail e p => .fail e p

/-- Modelled from the spec: one entry `u32 column_id | cell` of a cell list. -/
def write_cell_entry (e : column_id × cell) : bytes :=
  write_fixed 4 e.1.toNat ++ write_cell e.2

/-- Modelled from the spec: read one entry of a cell list. -/
def read_cell_entry (c : input_cursor) : read_result (column_id × cell) :=
  match read_fixed 4 c with
  | .ok id c1 =>
    match read_cell c1 with
    | .ok cl c2 => .ok (UInt32.ofNat id, cl) c2
    | .fail e p => .fail e p
  | .fail e p => .fail e p

/-- Modelled from the spec: `cells := u32 count | (u32 column_id | cell)*`. -/
def write_cells (r : row) : bytes := write_list write_cell_entry r

/-- Modelled from the spec: read a cell list. -/
def read_cells (c : input_cursor) : read_result row := read_list read_cell_entry c

/-- Modelled from the spec: `static_row := u8 present + optional cells`. -/
def write_static_row : Option row → bytes
  | none => write_fixed 1 0
  | some r => write_fixed 1 1 ++ write_cells r

/-- Modelled from the spec: read the optional static row; a presence byte other
than 0 or 1 is `malformed`. -/
def read_static_row (c : input_cursor) : read_result (Option row) :=
  match read_fixed 1 c with
  | .ok t c1 =>
    match t with
    | 0 => .ok none c1
    | 1 =>
      match read_cells c1 with
      | .ok r c2 => .ok (some r) c2
      | .fail e p => .fail e p
    | _ => .fail .malformed c1.pos
  | .fail e p => .fail e p

/-- Modelled from the spec:
`clustering_row := blob clustering_key | marker | tombstone | cells`. -/
def write_clustering_row (cr : clustering_row) : bytes :=
  write_blob cr.key ++ write_blob cr.marker ++ write_tombstone cr.tomb ++ write_cells cr.cells

/-- Modelled from the spec: read a clustering row. -/
def read_clustering_row (c : input_cursor) : read_result clustering_row :=
  match read_blob c with
  | .ok k c1 =>
    match read_blob c1 with
    | .ok m c2 =>
      match read_tombstone c2 with
      | .ok t c3 =>
        match read_cells c3 with
        | .ok cs c4 => .ok ⟨k, m, t, cs⟩ c4
        | .fail e p => .fail e p
      | .fail e p => .fail e p
    | .fail e p => .fail e p
  | .fail e p => .fail e p

/-! ## Partition serializer, fragment serializer, partition view -/

/-- Modelled from the spec: the range-tombstone accumulator
`range_tombstone_list`, an ordered sequence. -/
abbrev range_tombstone_list := List range_tombstone

/-- Modelled from the spec: `range_tombstone_list::apply`, which adds the range
tombstone with the given bounds and tombstone to the accumulator; consumption
order is emission order. -/
def range_tombstone_list.apply (_s : schema) (l : range_tombstone_list)
    (start_key : bytes) (start_kind : bound_kind) (end_key : bytes) (end_kind : bound_kind)
    (tomb : tombstone) : range_tombstone_list :=
  l ++ [⟨⟨start_key, start_kind⟩, ⟨end_key, end_kind⟩, tomb⟩]

/-- Modelled from the spec: `mutation_partition_serializer::write`, the body of
the partition frame of a live partition: partition tombstone, static row,
range-tombstone list, clustering-row list. -/
def mutation_partition_serializer.write (_s : schema) (p : mutation_partition) : bytes :=
  write_tombstone p.partition_tombstone
    ++ write_static_row p.static_row
    ++ write_list write_range_tombstone p.row_tombstones
    ++ write_list write_clustering_row p.rows

/-- Modelled from the spec: `serialize_mutation_fragments`, the body of the
partition frame built from the accumulated fragments: partition tombstone,
static row, range tombstones, clustering rows, each in the order given. -/
def serialize_mutation_fragments (_s : schema) (pt : tombstone) (sr : Option static_row)
    (rts : range_tombstone_list) (crs : List clustering_row) : bytes :=
  write_tombstone pt
    ++ write_static_row (sr.map static_row.cells)
    ++ write_list write_range_tombstone rts
    ++ write_list write_clustering_row crs

/-- Modelled from the spec: `ser::writer_of_mutation`, the envelope
`u32 total_len | uuid table_id | uuid schema_version | blob partition_key |
frame partition`. -/
def writer_of_mutation (table_id schema_version : UUID) (key : partition_key)
    (partition : bytes) : bytes :=
  write_frame (write_uuid table_id ++ write_uuid schema_version ++ write_blob key
    ++ write_frame partition)

/-- Modelled from the spec: `ser::mutation_view`, a cursor over the region the
outer frame encloses. -/
structure mutation_view where
  v : input_cursor
deriving DecidableEq, Repr

/-- Modelled from the spec: `ser::deserialize` at `mutation_view`: read the
outer frame. -/
def deserialize_mutation_view (c : input_cursor) : read_result mutation_view :=
  match read_frame c with
  | .ok sub c1 => .ok ⟨sub⟩ c1
  | .fail e p => .fail e p

/-- Modelled from the spec: `mutation_view::table_id`, a cursor-based read of
the first header field. -/
def mutation_view.table_id (mv : mutation_view) : read_result UUID := read_uuid mv.v

/-- Modelled from the spec: `mutation_view::schema_version`: skip the table id,
read the version. -/
def mutation_view.schema_version (mv : mutation_view) : read_result UUID :=
  match mv.v.skip 16 with
  | .ok _ c1 => read_uuid c1
  | .fail e p => .fail e p

/-- Modelled from the spec: `mutation_view::key`: skip both uuids, read the key
blob. -/
def mutation_view.key (mv : mutation_view) : read_result partition_key :=
  match mv.v.skip 16 with
  | .ok _ c1 =>
    match c1.skip 16 with
    | .ok _ c2 => read_blob c2
    | .fail e p => .fail e p
  | .fail e p => .fail e p

/-- Modelled from the spec: `mutation_view::partition`: skip the header fields
and the key, read the partition frame. -/
def mutation_view.partition (mv : mutation_view) : read_result input_cursor :=
  match mv.v.skip 16 with
  | .ok _ c1 =>
    match c1.skip 16 with
    | .ok _ c2 =>
      match read_blob c2 with
      | .ok _ c3 => read_frame c3
      | .fail e p => .fail e p
    | .fail e p => .fail e p
  | .fail e p => .fail e p

/-- Modelled from the spec: `mutation_partition_view`, a cursor positioned at
the partition frame. -/
structure mutation_partition_view where
  v : input_cursor
deriving DecidableEq, Repr

/-- Modelled from the spec: `mutation_partition_view::from_view`. -/
def mutation_partition_view.from_view (c : input_cursor) : mutation_partition_view := ⟨c⟩

/-- Modelled from the spec: the builder a partition view drives, with its four
callbacks. -/
structure partition_visitor (β : Type) where
  accept_partition_tombstone : β → tombstone → β
  accept_static_row : β → row → β
  accept_row : β → bytes → bytes → tombstone → row → β
  accept_range_tombstone : β → bound → bound → tombstone → β

/-- Modelled from the spec: whether every column id of a cell list is a column
of the schema. -/
def schema.knows (s : schema) (r : row) : Bool := r.all (fun e => s.columns.contains e.1)

/-- Modelled from the spec: the visitor loop over `n` range tombstones, one
callback per entry. -/
def accept_range_tombstones {β : Type} (vis : partition_visitor β) :
    Nat → input_cursor → β → Except error (β × input_cursor)
  | 0, c, b => .ok (b, c)
  | n + 1, c, b =>
    match read_range_tombstone c with
    | .ok rt c1 =>
      accept_range_tombstones vis n c1 (vis.accept_range_tombstone b rt.start_bound rt.end_bound rt.tomb)
    | .fail e _ => .error e

/-- Modelled from the spec: the visitor loop over `n` clustering rows, one
callback per row; a column id absent from the schema is `schema_mismatch`. -/
def accept_rows {β : Type} (s : schema) (vis : partition_visitor β) :
    Nat → input_cursor → β → Except error (β × input_cursor)
  | 0, c, b => .ok (b, c)
  | n + 1, c, b =>
    match read_clustering_row c with
    | .ok cr c1 =>
      if s.knows cr.cells then
        accept_rows s vis n c1 (vis.accept_row b cr.key cr.marker cr.tomb cr.cells)
      else .error .schema_mismatch
    | .fail e _ => .error e

/-- Modelled from the spec: `mutation_partition_view::accept`, driving the
builder through the callbacks in emission order: partition tombstone, static
row (if present), range tombstones, clustering rows. -/
def mutation_partition_view.accept {β : Type} (pv : mutation_partition_view) (s : schema)
    (vis : partition_visitor β) (b : β) : Except error β :=
  match read_tombstone pv.v with
  | .fail e _ => .error e
  | .ok t c1 =>
    let b1 := vis.accept_partition_tombstone b t
    match read_static_row c1 with
    | .fail e _ => .error e
    | .ok sr c2 =>
      match (match sr with
             | none => Except.ok b1
             | some r => if s.knows r then Except.ok (vis.accept_static_row b1 r)
                         else Except.error error.schema_mismatch) with
      | .error e => .error e
      | .ok b2 =>
        match read_fixed 4 c2 with
        | .fail e _ => .error e
        | .ok n c3 =>
          match accept_range_tombstones vis n c3 b2 with
          | .error e => .error e
          | .ok (b3, c4) =>
            match read_fixed 4 c4 with
            | .fail e _ => .error e
            | .ok k c5 =>
              match accept_rows s vis k c5 b3 with
              | .error e => .error e
              | .ok (b4, _) => .ok b4

/-- Modelled from the spec: `partition_builder`, the builder bound to a live
partition: each callback records its arguments in the partition, in callback
order. -/
def partition_builder (s : schema) : partition_visitor mutation_partition where
  accept_partition_tombstone p t := { p with partition_tombstone := t }
  accept_static_row p r := { p with static_row := some r }
  accept_row p k m t cs := { p with rows := p.rows ++ [⟨k, m, t, cs⟩] }
  accept_range_tombstone p sb eb t :=
    { p with row_tombstones :=
        range_tombstone_list.apply s p.row_tombstones sb.key sb.kind eb.key eb.kind t }

/-! ## The envelope `frozen_mutation` (from the source) -/

/-- The accessor `frozen_mutation::column_family_id`: deserialize a
`mutation_view` from `_bytes` and return its table id. -/
def frozen_mutation.column_family_id (fm : frozen_mutation) : Except error UUID :=
  match deserialize_mutation_view (as_input_stream fm._bytes) with
  | .ok mv _ => mv.table_id.to_except
  | .fail e _ => .error e

/-- The accessor `frozen_mutation::schema_version`: deserialize a
`mutation_view` from `_bytes` and return its schema version. -/
def frozen_mutation.schema_version (fm : frozen_mutation) : Except error UUID :=
  match deserialize_mutation_view (as_input_stream fm._bytes) with
  | .ok mv _ => mv.schema_version.to_except
  | .fail e _ => .error e

/-- The accessor `frozen_mutation::key`: the cached `_pk`, whatever the
schema. -/
def frozen_mutation.key (fm : frozen_mutation) (_s : schema) : partition_key := fm._pk

/-- The member `frozen_mutation::deserialize_key`, run on the buffer `_bytes`:
deserialize a `mutation_view` and return its key. -/
def frozen_mutation.deserialize_key (_bytes : bytes) : read_result partition_key :=
  match deserialize_mutation_view (as_input_stream _bytes) with
  | .ok mv _ => mv.key
  | .fail e p => .fail e p

/-- The constructor `frozen_mutation(bytes&& b)`: adopt the buffer and cache the
key that `deserialize_key` extracts; an error of the extraction propagates. -/
def frozen_mutation.from_bytes (b : bytes) : Except error frozen_mutation :=
  match (frozen_mutation.deserialize_key b).to_except with
  | .ok pk => .ok { _bytes := b, _pk := pk }
  | .error e => .error e

/-- The constructor `frozen_mutation(bytes_view bv, partition_key pk)`: copy the
bytes, adopt the key. -/
def frozen_mutation.from_wire (bv : bytes) (pk : partition_key) : frozen_mutation :=
  { _bytes := bv, _pk := pk }

/-- The constructor `frozen_mutation(const mutation& m)`: cache `m.key()` and
write table id, schema version, key and the partition frame. -/
def frozen_mutation.from_mutation (m : mutation) : frozen_mutation :=
  { _pk := m.key
    _bytes := writer_of_mutation m.schema.id m.schema.version m.key
      (mutation_partition_serializer.write m.schema m.partition) }

/-- The function `freeze(const mutation&)`. -/
def freeze (m : mutation) : frozen_mutation := frozen_mutation.from_mutation m

/-- The accessor `frozen_mutation::partition`: deserialize a `mutation_view`
from `_bytes` and position a partition view at its partition frame. -/
def frozen_mutation.partition (fm : frozen_mutation) : Except error mutation_partition_view :=
  match deserialize_mutation_view (as_input_stream fm._bytes) with
  | .ok mv _ =>
    match mv.partition with
    | .ok c _ => .ok (mutation_partition_view.from_view c)
    | .fail e _ => .error e
  | .fail e _ => .error e

/-- The method `frozen_mutation::unfreeze`: a mutation with key `key(*schema)`
and an empty partition, filled by a `partition_builder` that the partition view
drives. -/
def frozen_mutation.unfreeze (fm : frozen_mutation) (s : schema) : Except error mutation :=
  match fm.partition with
  | .ok pv =>
    match pv.accept s (partition_builder s) mutation_partition.empty with
    | .ok p => .ok { schema := s, key := fm.key s, partition := p }
    | .error e => .error e
  | .error e => .error e

/-! ## The streaming freezer (from the source) -/

/-- Modelled from the spec: the signal `stop_iteration` a consumer returns. -/
inductive stop_iteration where
  | no
  | yes
deriving DecidableEq, Repr

/-- The class `streamed_mutation_freezer`: the members its methods use. -/
structure streamed_mutation_freezer where
  _schema : schema
  _key : partition_key
  _partition_tombstone : tombstone
  _sr : Option static_row
  _crs : List clustering_row
  _rts : range_tombstone_list
  _range_tombstone_begin : Option range_tombstone_begin

/-- Modelled from the spec: the constructor
`streamed_mutation_freezer(schema, key)`, which captures schema and key and
leaves every accumulator empty. -/
def streamed_mutation_freezer.init (s : schema) (key : partition_key) :
    streamed_mutation_freezer :=
  { _schema := s, _key := key, _partition_tombstone := tombstone.absent, _sr := none,
    _crs := [], _rts := [], _range_tombstone_begin := none }

/-- The overload `consume(tombstone pt)`. -/
def streamed_mutation_freezer.consume_tombstone (f : streamed_mutation_freezer) (pt : tombstone) :
    Option (streamed_mutation_freezer × stop_iteration) :=
  some ({ f with _partition_tombstone := pt }, .no)

/-- The overload `consume(static_row&& sr)`. -/
def streamed_mutation_freezer.consume_static_row (f : streamed_mutation_freezer) (sr : static_row) :
    Option (streamed_mutation_freezer × stop_iteration) :=
  some ({ f with _sr := some sr }, .no)

/-- The overload `consume(clustering_row&& cr)`: `emplace_back` on `_crs`. -/
def streamed_mutation_freezer.consume_clustering_row (f : streamed_mutation_freezer)
    (cr : clustering_row) : Option (streamed_mutation_freezer × stop_iteration) :=
  some ({ f with _crs := f._crs ++ [cr] }, .no)

/-- The overload `consume(range_tombstone_begin&& rtb)`; `none` is the failed
`assert(!_range_tombstone_begin)`. -/
def streamed_mutation_freezer.consume_range_tombstone_begin (f : streamed_mutation_freezer)
    (rtb : range_tombstone_begin) : Option (streamed_mutation_freezer × stop_iteration) :=
  match f._range_tombstone_begin with
  | some _ => none
  | none => some ({ f with _range_tombstone_begin := some rtb }, .no)

/-- The overload `consume(range_tombstone_end&& rte)`; `none` is the failed
`assert(_range_tombstone_begin)`. -/
def streamed_mutation_freezer.consume_range_tombstone_end (f : streamed_mutation_freezer)
    (rte : range_tombstone_end) : Option (streamed_mutation_freezer × stop_iteration) :=
  match f._range_tombstone_begin with
  | none => none
  | some rtb =>
    some ({ f with
              _rts := range_tombstone_list.apply f._schema f._rts rtb.key rtb.kind
                        rte.key rte.kind rtb.tomb
              _range_tombstone_begin := none }, .no)

/-- The method `streamed_mutation_freezer::consume_end_of_stream`: write table
id, schema version, key and the partition frame built by
`serialize_mutation_fragments`, and wrap the bytes with the key. -/
def streamed_mutation_freezer.consume_end_of_stream (f : streamed_mutation_freezer) :
    frozen_mutation :=
  frozen_mutation.from_wire
    (writer_of_mutation f._schema.id f._schema.version f._key
      (serialize_mutation_fragments f._schema f._partition_tombstone f._sr f._rts f._crs))
    f._key

/-- Modelled from the spec: a fragment of the upstream stream. -/
inductive mutation_fragment where
  | partition_tombstone (pt : tombstone)
  | static_row (sr : static_row)
  | clustering_row (cr : clustering_row)
  | range_tombstone_begin (rtb : range_tombstone_begin)
  | range_tombstone_end (rte : range_tombstone_end)
deriving DecidableEq, Repr

/-- The overload set `streamed_mutation_freezer::consume`, dispatched on the
fragment. -/
def streamed_mutation_freezer.consume (f : streamed_mutation_freezer) :
    mutation_fragment → Option (streamed_mutation_freezer × stop_iteration)
  | .partition_tombstone pt => f.consume_tombstone pt
  | .static_row sr => f.consume_static_row sr
  | .clustering_row cr => f.consume_clustering_row cr
  | .range_tombstone_begin rtb => f.consume_range_tombstone_begin rtb
  | .range_tombstone_end rte => f.consume_range_tombstone_end rte

/-- Modelled from the spec: the stream driver, which hands the fragments to the
consumer one by one, stops early on the `stop` signal, and aborts (`none`) when
a consume call fails its assertion. -/
def consume_fragments (f : streamed_mutation_freezer) :
    List mutation_fragment → Option streamed_mutation_freezer
  | [] => some f
  | fr :: frs =>
    match f.consume fr with
    | none => none
    | some (f1, .no) => consume_fragments f1 frs
    | some (f1, .yes) => some f1

/-- Modelled from the spec: the fragment stream of a live mutation: partition
tombstone, static row (if present), clustering rows in order, each range
tombstone as a begin/end pair. -/
def stream (m : mutation) : List mutation_fragment :=
  [.partition_tombstone m.partition.partition_tombstone]
    ++ (m.partition.static_row.map (fun r => mutation_fragment.static_row ⟨r⟩)).toList
    ++ m.partition.rows.map .clustering_row
    ++ (m.partition.row_tombstones.map (fun rt =>
          [mutation_fragment.range_tombstone_begin ⟨rt.start_bound.key, rt.start_bound.kind, rt.tomb⟩,
           mutation_fragment.range_tombstone_end ⟨rt.end_bound.key, rt.end_bound.kind⟩])).flatten

/-- The function `freeze(streamed_mutation)`: a freezer built from the stream's
schema and key consumes the fragments, then `consume_end_of_stream`. -/
def freeze_stream (s : schema) (key : partition_key) (frs : List mutation_fragment) :
    Option frozen_mutation :=
  (consume_fragments (streamed_mutation_freezer.init s key) frs).map
    streamed_mutation_freezer.consume_end_of_stream

/-! ## Well-formed live mutations -/

/-- Modelled from the spec: whether every column id a partition uses is a
column of the schema. -/
def mutation_partition.columns_known (p : mutation_partition) (s : schema) : Bool :=
  (match p.static_row with
   | none => true
   | some r => s.knows r) && p.rows.all (fun cr => s.knows cr.cells)

/-- Modelled from the spec: the side conditions of a live mutation that the
codec relies on: its frozen form fits the 32-bit size of a `bytes` buffer (and
so of every `u32` length and count inside it), and it only uses columns of its
own schema. -/
def mutation.well_formed (m : mutation) : Prop :=
  (freeze m)._bytes.length < 2 ^ 32 ∧ m.partition.columns_known m.schema = true

/-! ## Trace observers and sample inputs -/

/-- The clustering rows of a fragment sequence, in arrival order. -/
def rows_of : List mutation_fragment → List clustering_row
  | [] => []
  | .clustering_row cr :: frs => cr :: rows_of frs
  | _ :: frs => rows_of frs

/-- The number of `range_tombstone_begin` fragments of a sequence minus the
number of its `range_tombstone_end` fragments: the begins left open. -/
def open_begins : List mutation_fragment → Int
  | [] => 0
  | .range_tombstone_begin _ :: frs => open_begins frs + 1
  | .range_tombstone_end _ :: frs => open_begins frs - 1
  | _ :: frs => open_begins frs

/-- A clustering comparator for the samples: lexicographic order on the key
bytes. -/
def lex_less : bytes → bytes → Bool
  | [], [] => false
  | [], _ :: _ => true
  | _ :: _, [] => false
  | a :: as, b :: bs => if a < b then true else if b < a then false else lex_less as bs

/-- A sample schema with columns 7 and 9. -/
def sample_schema : schema := ⟨⟨1, 2⟩, ⟨3, 4⟩, [7, 9], lex_less⟩

/-- A sample clustering row with key `c1`. -/
def sample_row_1 : clustering_row := ⟨[99, 49], [0], tombstone.absent, [(7, ⟨.live_atomic, [118]⟩)]⟩

/-- A sample clustering row with key `c2`. -/
def sample_row_2 : clustering_row := ⟨[99, 50], [], ⟨40, 2⟩, []⟩

/-- A sample live mutation: partition tombstone, static row, one range
tombstone, two clustering rows. -/
def sample_mutation : mutation :=
  ⟨sample_schema, [112, 107, 49],
   ⟨⟨50, 1000⟩, some [(9, ⟨.dead_atomic, [5]⟩)],
    [⟨⟨[99, 49], .inclusive_start⟩, ⟨[99, 51], .exclusive_end⟩, ⟨200, 5⟩⟩],
    [sample_row_1, sample_row_2]⟩⟩

/-- A sample `range_tombstone_begin` fragment. -/
def sample_begin : range_tombstone_begin := ⟨[99, 49], .inclusive_start, ⟨200, 5⟩⟩

/-- A sample `range_tombstone_end` fragment. -/
def sample_end : range_tombstone_end := ⟨[99, 51], .exclusive_end⟩

/-- A sample freezer state: the row `c2` accumulated, no begin open. -/
def sample_freezer : streamed_mutation_freezer :=
  { streamed_mutation_freezer.init sample_schema [112, 107, 49] with _crs := [sample_row_2] }

/-- A sample freezer state with a begin left open. -/
def sample_freezer_open : streamed_mutation_freezer :=
  { sample_freezer with _range_tombstone_begin := some sample_begin }

/-- The number of begins the freezer state holds open: 1 when
`_range_tombstone_begin` is engaged, 0 otherwise. -/
def streamed_mutation_freezer.open_count (f : streamed_mutation_freezer) : Int :=
  match f._range_tombstone_begin with
  | some _ => 1
  | none => 0

/-- The live mutation made of the accumulators of a freezer state: schema, key,
partition tombstone, static row, range tombstones and clustering rows.  The
member `_range_tombstone_begin` is not part of it. -/
def streamed_mutation_freezer.accumulated (f : streamed_mutation_freezer) : mutation :=
  ⟨f._schema, f._key,
   ⟨f._partition_tombstone, f._sr.map static_row.cells, f._rts, f._crs⟩⟩

/-! ## Lemmas on the primitives -/

theorem length_write_fixed (n v : Nat) : (write_fixed n v).length = n := by
  induction n generalizing v with
  | zero => rfl
  | succ n ih => simp [write_fixed, ih]

theorem from_le_write_fixed (n v : Nat) : from_le (write_fixed n v) = v % 256 ^ n := by
  induction n generalizing v with
  | zero => simp [write_fixed, from_le, Nat.mod_one]
  | succ n ih =>
    simp only [write_fixed, from_le, ih]
    have h : (UInt8.ofNat (v % 256)).toNat = v % 256 := by
      simp [UInt8.ofNat, UInt8.toNat, Fin.ofNat]
    rw [h, pow_succ, Nat.mul_comm (256 ^ n) 256, Nat.mod_mul]

theorem read_append (xs rest : bytes) (p : Nat) :
    input_cursor.read ⟨xs ++ rest, p⟩ xs.length = .ok xs ⟨rest, p + xs.length⟩ := by
  simp [input_cursor.read]

theorem read_fixed_write (n v : Nat) (rest : bytes) (p : Nat) (hv : v < 256 ^ n) :
    read_fixed n ⟨write_fixed n v ++ rest, p⟩ = .ok v ⟨rest, p + n⟩ := by
  have h := read_append (write_fixed n v) rest p
  rw [length_write_fixed] at h
  simp [read_fixed, h, from_le_write_fixed, Nat.mod_eq_of_lt hv]

theorem read_blob_write (b rest : bytes) (p : Nat) (hb : b.length < 2 ^ 32) :
    read_blob ⟨write_blob b ++ rest, p⟩ = .ok b ⟨rest, p + (write_blob b).length⟩ := by
  have h4 : b.length < 256 ^ 4 := by norm_num at hb ⊢; exact hb
  simp only [read_blob, write_blob, List.append_assoc, read_fixed_write 4 _ _ p h4]
  rw [read_append]
  simp [length_write_fixed, Nat.add_assoc]

theorem read_frame_write (body rest : bytes) (p : Nat) (hb : body.length < 2 ^ 32) :
    read_frame ⟨write_frame body ++ rest, p⟩
      = .ok ⟨body, p + 4⟩ ⟨rest, p + (write_frame body).length⟩ := by
  have h4 : body.length < 256 ^ 4 := by norm_num at hb ⊢; exact hb
  simp only [read_frame, write_frame, List.append_assoc, read_fixed_write 4 _ _ p h4]
  simp [length_write_fixed, Nat.add_assoc]

/-! ## Lengths of the encodings -/

theorem length_write_blob (b : bytes) : (write_blob b).length = 4 + b.length := by
  simp [write_blob, length_write_fixed]

theorem length_write_frame (b : bytes) : (write_frame b).length = 4 + b.length := by
  simp [write_frame, length_write_fixed]

theorem length_write_uuid (u : UUID) : (write_uuid u).length = 16 := by
  simp [write_uuid, length_write_fixed]

theorem length_write_tombstone (t : tombstone) : (write_tombstone t).length = 16 := by
  simp [write_tombstone, length_write_fixed]

theorem length_write_bound (b : bound) : (write_bound b).length = 5 + b.key.length := by
  simp [write_bound, length_write_blob, length_write_fixed]; omega

theorem length_write_range_tombstone (rt : range_tombstone) :
    (write_range_tombstone rt).length
      = 26 + rt.start_bound.key.length + rt.end_bound.key.length := by
  simp [write_range_tombstone, length_write_bound, length_write_tombstone]; omega

theorem length_write_cell (c : cell) : (write_cell c).length = 5 + c.payload.length := by
  simp [write_cell, length_write_blob, length_write_fixed]; omega

theorem length_write_cell_entry (e : column_id × cell) :
    (write_cell_entry e).length = 9 + e.2.payload.length := by
  simp [write_cell_entry, length_write_cell, length_write_fixed]; omega

theorem length_write_list {α : Type} (w : α → bytes) (xs : List α) :
    (write_list w xs).length = 4 + ((xs.map w).flatten).length := by
  simp [write_list, length_write_fixed]

theorem length_flatten_cons {α : Type} (w : α → bytes) (x : α) (xs : List α) :
    (((x :: xs).map w).flatten).length = (w x).length + ((xs.map w).flatten).length := by
  simp

theorem count_le_length_flatten {α : Type} (w : α → bytes) (xs : List α)
    (hpos : ∀ x ∈ xs, 0 < (w x).length) : xs.length ≤ ((xs.map w).flatten).length := by
  induction xs with
  | nil => simp
  | cons x xs ih =>
    have h1 := hpos x (List.mem_cons_self x xs)
    have h2 := ih (fun y hy => hpos y (List.mem_cons_of_mem x hy))
    rw [length_flatten_cons]
    simp only [List.length_cons]
    omega

theorem length_write_clustering_row (cr : clustering_row) :
    (write_clustering_row cr).length
      = 24 + cr.key.length + cr.marker.length + (write_cells cr.cells).length := by
  simp [write_clustering_row, length_write_blob, length_write_tombstone]; omega

/-! ## Reading back what was written -/

theorem u64_of_toNat (x : UInt64) : UInt64.ofNat x.toNat = x := by
  cases x with
  | mk v => simp [UInt64.ofNat, UInt64.toNat, Fin.ofNat]

theorem u32_of_toNat (x : UInt32) : UInt32.ofNat x.toNat = x := by
  cases x with
  | mk v => simp [UInt32.ofNat, UInt32.toNat, Fin.ofNat]

theorem u64_toNat_lt (x : UInt64) : x.toNat < 256 ^ 8 := by
  have h := x.val.isLt
  simpa [UInt64.size] using h

theorem u32_toNat_lt (x : UInt32) : x.toNat < 256 ^ 4 := by
  have h := x.val.isLt
  simpa [UInt32.size] using h

theorem skip_append (xs rest : bytes) (p : Nat) :
    input_cursor.skip ⟨xs ++ rest, p⟩ xs.length = .ok () ⟨rest, p + xs.length⟩ := by
  simp [input_cursor.skip, read_append]

theorem read_uuid_write (u : UUID) (rest : bytes) (p : Nat) :
    read_uuid ⟨write_uuid u ++ rest, p⟩ = .ok u ⟨rest, p + 16⟩ := by
  simp only [read_uuid, write_uuid, List.append_assoc,
    read_fixed_write 8 _ _ _ (u64_toNat_lt _), u64_of_toNat, Nat.add_assoc]

theorem read_tombstone_write (t : tombstone) (rest : bytes) (p : Nat) :
    read_tombstone ⟨write_tombstone t ++ rest, p⟩ = .ok t ⟨rest, p + 16⟩ := by
  simp only [read_tombstone, write_tombstone, List.append_assoc,
    read_fixed_write 8 _ _ _ (u64_toNat_lt _), u64_of_toNat, Nat.add_assoc]

theorem bound_kind_of_tag (k : bound_kind) : bound_kind.of_tag k.tag = some k := by
  cases k <;> rfl

theorem bound_kind_tag_lt (k : bound_kind) : k.tag < 256 ^ 1 := by
  cases k <;> simp [bound_kind.tag]

theorem cell_kind_of_tag (k : cell_kind) : cell_kind.of_tag k.tag = some k := by
  cases k <;> rfl

theorem cell_kind_tag_lt (k : cell_kind) : k.tag < 256 ^ 1 := by
  cases k <;> simp [cell_kind.tag]

theorem read_bound_write (b : bound) (rest : bytes) (p : Nat) (h : b.key.length < 2 ^ 32) :
    read_bound ⟨write_bound b ++ rest, p⟩ = .ok b ⟨rest, p + (write_bound b).length⟩ := by
  simp only [read_bound, write_bound, List.append_assoc, read_blob_write _ _ _ h,
    read_fixed_write 1 _ _ _ (bound_kind_tag_lt _), bound_kind_of_tag]
  simp [length_write_blob, length_write_fixed, Nat.add_assoc]

theorem read_range_tombstone_write (rt : range_tombstone) (rest : bytes) (p : Nat)
    (h : (write_range_tombstone rt).length < 2 ^ 32) :
    read_range_tombstone ⟨write_range_tombstone rt ++ rest, p⟩
      = .ok rt ⟨rest, p + (write_range_tombstone rt).length⟩ := by
  rw [length_write_range_tombstone] at h
  have h1 : rt.start_bound.key.length < 2 ^ 32 := by omega
  have h2 : rt.end_bound.key.length < 2 ^ 32 := by omega
  simp only [read_range_tombstone, write_range_tombstone, List.append_assoc,
    read_bound_write _ _ _ h1, read_bound_write _ _ _ h2, read_tombstone_write]
  simp [length_write_bound, length_write_tombstone, Nat.add_assoc]

theorem read_cell_write (c : cell) (rest : bytes) (p : Nat) (h : c.payload.length < 2 ^ 32) :
    read_cell ⟨write_cell c ++ rest, p⟩ = .ok c ⟨rest, p + (write_cell c).length⟩ := by
  simp only [read_cell, write_cell, List.append_assoc,
    read_fixed_write 1 _ _ _ (cell_kind_tag_lt _), cell_kind_of_tag, read_blob_write _ _ _ h]
  simp [length_write_blob, length_write_fixed, Nat.add_assoc]

theorem read_cell_entry_write (e : column_id × cell) (rest : bytes) (p : Nat)
    (h : (write_cell_entry e).length < 2 ^ 32) :
    read_cell_entry ⟨write_cell_entry e ++ rest, p⟩
      = .ok e ⟨rest, p + (write_cell_entry e).length⟩ := by
  rw [length_write_cell_entry] at h
  have h1 : e.2.payload.length < 2 ^ 32 := by omega
  simp only [read_cell_entry, write_cell_entry, List.append_assoc,
    read_fixed_write 4 _ _ _ (u32_toNat_lt _), read_cell_write _ _ _ h1, u32_of_toNat]
  simp [length_write_cell, length_write_fixed, Nat.add_assoc]

theorem read_n_write {α : Type} (w : α → bytes) (r : input_cursor → read_result α)
    (xs : List α) (rest : bytes) (p : Nat)
    (hr : ∀ x ∈ xs, ∀ (rest : bytes) (p : Nat),
      r ⟨w x ++ rest, p⟩ = .ok x ⟨rest, p + (w x).length⟩) :
    read_n r xs.length ⟨(xs.map w).flatten ++ rest, p⟩
      = .ok xs ⟨rest, p + ((xs.map w).flatten).length⟩ := by
  induction xs generalizing p with
  | nil => simp [read_n]
  | cons x xs ih =>
    have hx := hr x (List.mem_cons_self x xs)
    have hxs := ih (p + (w x).length) (fun y hy => hr y (List.mem_cons_of_mem x hy))
    simp only [List.map_cons, List.flatten_cons, List.append_assoc, List.length_cons, read_n,
      hx, hxs, List.length_append, Nat.add_assoc]

theorem read_list_write {α : Type} (w : α → bytes) (r : input_cursor → read_result α)
    (xs : List α) (rest : bytes) (p : Nat)
    (hr : ∀ x ∈ xs, (w x).length < 2 ^ 32 → ∀ (rest : bytes) (p : Nat),
      r ⟨w x ++ rest, p⟩ = .ok x ⟨rest, p + (w x).length⟩)
    (hpos : ∀ x ∈ xs, 0 < (w x).length)
    (h : (write_list w xs).length < 2 ^ 32) :
    read_list r ⟨write_list w xs ++ rest, p⟩
      = .ok xs ⟨rest, p + (write_list w xs).length⟩ := by
  rw [length_write_list] at h
  have hc := count_le_length_flatten w xs hpos
  have hn : xs.length < 256 ^ 4 := by norm_num; omega
  have hel : ∀ x ∈ xs, (w x).length ≤ ((xs.map w).flatten).length := by
    intro x hx
    have hm : w x ∈ xs.map w := List.mem_map_of_mem w hx
    have hs := List.sublist_flatten_of_mem hm
    exact hs.length_le
  have hr2 : ∀ x ∈ xs, ∀ (rest : bytes) (p : Nat),
      r ⟨w x ++ rest, p⟩ = .ok x ⟨rest, p + (w x).length⟩ := by
    intro x hx
    exact hr x hx (by have := hel x hx; omega)
  simp only [read_list, write_list, List.append_assoc, read_fixed_write 4 _ _ _ hn,
    read_n_write w r xs rest (p + 4) hr2]
  simp [length_write_fixed, Nat.add_assoc]

theorem read_cells_write (cs : row) (rest : bytes) (p : Nat)
    (h : (write_cells cs).length < 2 ^ 32) :
    read_cells ⟨write_cells cs ++ rest, p⟩ = .ok cs ⟨rest, p + (write_cells cs).length⟩ := by
  unfold read_cells write_cells at *
  apply read_list_write
  · intro e _ he rest p
    exact read_cell_entry_write e rest p he
  · intro e _
    rw [length_write_cell_entry]; omega
  · exact h

theorem length_write_static_row_none : (write_static_row none).length = 1 := by
  simp [write_static_row, length_write_fixed]

theorem length_write_static_row_some (r : row) :
    (write_static_row (some r)).length = 1 + (write_cells r).length := by
  simp [write_static_row, length_write_fixed]

theorem read_static_row_write (sr : Option row) (rest : bytes) (p : Nat)
    (h : (write_static_row sr).length < 2 ^ 32) :
    read_static_row ⟨write_static_row sr ++ rest, p⟩
      = .ok sr ⟨rest, p + (write_static_row sr).length⟩ := by
  cases sr with
  | none =>
    have h0 : (0 : Nat) < 256 ^ 1 := by norm_num
    simp only [read_static_row, write_static_row, read_fixed_write 1 0 _ _ h0,
      length_write_fixed]
  | some r =>
    rw [length_write_static_row_some] at h
    have h1 : (1 : Nat) < 256 ^ 1 := by norm_num
    have hr : (write_cells r).length < 2 ^ 32 := by omega
    simp only [read_static_row, write_static_row, List.append_assoc,
      read_fixed_write 1 1 _ _ h1, read_cells_write _ _ _ hr]
    simp [length_write_fixed, Nat.add_assoc]

theorem read_clustering_row_write (cr : clustering_row) (rest : bytes) (p : Nat)
    (h : (write_clustering_row cr).length < 2 ^ 32) :
    read_clustering_row ⟨write_clustering_row cr ++ rest, p⟩
      = .ok cr ⟨rest, p + (write_clustering_row cr).length⟩ := by
  rw [length_write_clustering_row] at h
  have h1 : cr.key.length < 2 ^ 32 := by omega
  have h2 : cr.marker.length < 2 ^ 32 := by omega
  have h3 : (write_cells cr.cells).length < 2 ^ 32 := by omega
  simp only [read_clustering_row, write_clustering_row, List.append_assoc,
    read_blob_write _ _ _ h1, read_blob_write _ _ _ h2, read_tombstone_write,
    read_cells_write _ _ _ h3]
  simp [length_write_blob, length_write_tombstone, Nat.add_assoc]

/-! ## The partition view driving the partition builder -/

theorem accept_range_tombstones_write (s : schema) (rts : List range_tombstone) (rest : bytes)
    (p : Nat) (b : mutation_partition)
    (h : ∀ rt ∈ rts, (write_range_tombstone rt).length < 2 ^ 32) :
    accept_range_tombstones (partition_builder s) rts.length
        ⟨(rts.map write_range_tombstone).flatten ++ rest, p⟩ b
      = .ok ({ b with row_tombstones := b.row_tombstones ++ rts },
             ⟨rest, p + ((rts.map write_range_tombstone).flatten).length⟩) := by
  induction rts generalizing p b with
  | nil => simp [accept_range_tombstones]
  | cons rt rts ih =>
    have h1 := h rt (List.mem_cons_self rt rts)
    have h2 := fun x hx => h x (List.mem_cons_of_mem rt hx)
    simp only [List.map_cons, List.flatten_cons, List.append_assoc, List.length_cons,
      accept_range_tombstones, read_range_tombstone_write _ _ _ h1, ih _ _ h2]
    simp [partition_builder, range_tombstone_list.apply, Nat.add_assoc]

theorem accept_rows_write (s : schema) (crs : List clustering_row) (rest : bytes)
    (p : Nat) (b : mutation_partition)
    (h : ∀ cr ∈ crs, (write_clustering_row cr).length < 2 ^ 32)
    (hk : ∀ cr ∈ crs, s.knows cr.cells = true) :
    accept_rows s (partition_builder s) crs.length
        ⟨(crs.map write_clustering_row).flatten ++ rest, p⟩ b
      = .ok ({ b with rows := b.rows ++ crs },
             ⟨rest, p + ((crs.map write_clustering_row).flatten).length⟩) := by
  induction crs generalizing p b with
  | nil => simp [accept_rows]
  | cons cr crs ih =>
    have h1 := h cr (List.mem_cons_self cr crs)
    have h2 := fun x hx => h x (List.mem_cons_of_mem cr hx)
    have k1 := hk cr (List.mem_cons_self cr crs)
    have k2 := fun x hx => hk x (List.mem_cons_of_mem cr hx)
    simp only [List.map_cons, List.flatten_cons, List.append_assoc, List.length_cons,
      accept_rows, read_clustering_row_write _ _ _ h1, k1, if_true, ih _ _ h2 k2]
    simp [partition_builder, Nat.add_assoc]

theorem length_le_of_mem_flatten {α : Type} (w : α → bytes) (xs : List α) (x : α)
    (hx : x ∈ xs) : (w x).length ≤ ((xs.map w).flatten).length :=
  (List.sublist_flatten_of_mem (List.mem_map_of_mem w hx)).length_le

theorem length_partition_body (s : schema) (p : mutation_partition) :
    (mutation_partition_serializer.write s p).length
      = 24 + (write_static_row p.static_row).length
        + ((p.row_tombstones.map write_range_tombstone).flatten).length
        + ((p.rows.map write_clustering_row).flatten).length := by
  simp [mutation_partition_serializer.write, length_write_tombstone, length_write_list]
  omega

theorem accept_write (s : schema) (p : mutation_partition) (pos : Nat)
    (h : (mutation_partition_serializer.write s p).length < 2 ^ 32)
    (hk : p.columns_known s = true) :
    mutation_partition_view.accept ⟨⟨mutation_partition_serializer.write s p, pos⟩⟩ s
        (partition_builder s) mutation_partition.empty = .ok p := by
  rw [length_partition_body] at h
  have hsr : (write_static_row p.static_row).length < 2 ^ 32 := by omega
  have hrt : ∀ rt ∈ p.row_tombstones, (write_range_tombstone rt).length < 2 ^ 32 := by
    intro rt hm
    have := length_le_of_mem_flatten write_range_tombstone _ rt hm
    omega
  have hcr : ∀ cr ∈ p.rows, (write_clustering_row cr).length < 2 ^ 32 := by
    intro cr hm
    have := length_le_of_mem_flatten write_clustering_row _ cr hm
    omega
  have hn1 : p.row_tombstones.length < 256 ^ 4 := by
    have := count_le_length_flatten write_range_tombstone p.row_tombstones
      (fun rt _ => by rw [length_write_range_tombstone]; omega)
    norm_num; omega
  have hn2 : p.rows.length < 256 ^ 4 := by
    have := count_le_length_flatten write_clustering_row p.rows
      (fun cr _ => by rw [length_write_clustering_row]; omega)
    norm_num; omega
  simp only [mutation_partition.columns_known, Bool.and_eq_true, List.all_eq_true] at hk
  obtain ⟨hks, hkr⟩ := hk
  have e0 : mutation_partition_serializer.write s p
      = write_tombstone p.partition_tombstone ++ (write_static_row p.static_row
          ++ (write_fixed 4 p.row_tombstones.length
          ++ ((p.row_tombstones.map write_range_tombstone).flatten
          ++ (write_fixed 4 p.rows.length
          ++ ((p.rows.map write_clustering_row).flatten ++ []))))) := by
    simp [mutation_partition_serializer.write, write_list]
  rw [e0]
  simp only [mutation_partition_view.accept, read_tombstone_write,
    read_static_row_write _ _ _ hsr]
  cases hsr' : p.static_row with
  | none =>
    simp only [read_fixed_write 4 _ _ _ hn1, read_fixed_write 4 _ _ _ hn2,
      accept_range_tombstones_write s _ _ _ _ hrt, accept_rows_write s _ _ _ _ hcr hkr]
    cases p
    simp_all [partition_builder, mutation_partition.empty]
  | some r =>
    rw [hsr'] at hks
    simp only [hks, if_true, read_fixed_write 4 _ _ _ hn1, read_fixed_write 4 _ _ _ hn2,
      accept_range_tombstones_write s _ _ _ _ hrt, accept_rows_write s _ _ _ _ hcr hkr]
    cases p
    simp_all [partition_builder, mutation_partition.empty]

/-! ## The envelope -/

theorem length_writer_of_mutation (t v : UUID) (key : partition_key) (part : bytes) :
    (writer_of_mutation t v key part).length = 44 + key.length + part.length := by
  simp [writer_of_mutation, length_write_frame, length_write_uuid, length_write_blob]
  omega

theorem length_freeze (m : mutation) :
    (freeze m)._bytes.length
      = 44 + m.key.length + (mutation_partition_serializer.write m.schema m.partition).length := by
  simp [freeze, frozen_mutation.from_mutation, length_writer_of_mutation]

theorem skip_uuid (u : UUID) (rest : bytes) (p : Nat) :
    input_cursor.skip ⟨write_uuid u ++ rest, p⟩ 16 = .ok () ⟨rest, p + 16⟩ := by
  have h := skip_append (write_uuid u) rest p
  rwa [length_write_uuid] at h

theorem deserialize_writer (t v : UUID) (key : partition_key) (part : bytes)
    (h : (writer_of_mutation t v key part).length < 2 ^ 32) :
    deserialize_mutation_view (as_input_stream (writer_of_mutation t v key part))
      = .ok ⟨⟨write_uuid t ++ (write_uuid v ++ (write_blob key ++ (write_frame part ++ []))), 4⟩⟩
          ⟨[], (writer_of_mutation t v key part).length⟩ := by
  have hb : (write_uuid t ++ write_uuid v ++ write_blob key ++ write_frame part).length
      < 2 ^ 32 := by
    rw [writer_of_mutation, length_write_frame] at h; omega
  have e := read_frame_write _ [] 0 hb
  simp only [List.append_nil, Nat.zero_add] at e
  simp only [deserialize_mutation_view, as_input_stream, writer_of_mutation, e]
  simp

theorem column_family_id_writer (t v : UUID) (key : partition_key) (part : bytes)
    (h : (writer_of_mutation t v key part).length < 2 ^ 32) :
    frozen_mutation.column_family_id ⟨writer_of_mutation t v key part, key⟩ = .ok t := by
  simp only [frozen_mutation.column_family_id, deserialize_writer t v key part h,
    mutation_view.table_id, read_uuid_write, read_result.to_except]

theorem schema_version_writer (t v : UUID) (key : partition_key) (part : bytes)
    (h : (writer_of_mutation t v key part).length < 2 ^ 32) :
    frozen_mutation.schema_version ⟨writer_of_mutation t v key part, key⟩ = .ok v := by
  simp only [frozen_mutation.schema_version, deserialize_writer t v key part h,
    mutation_view.schema_version, skip_uuid, read_uuid_write, read_result.to_except]

theorem deserialize_key_writer (t v : UUID) (key : partition_key) (part : bytes)
    (h : (writer_of_mutation t v key part).length < 2 ^ 32) :
    (frozen_mutation.deserialize_key (writer_of_mutation t v key part)).to_except = .ok key := by
  have hk : key.length < 2 ^ 32 := by rw [length_writer_of_mutation] at h; omega
  simp only [frozen_mutation.deserialize_key, deserialize_writer t v key part h,
    mutation_view.key, skip_uuid, read_blob_write _ _ _ hk, read_result.to_except]

theorem partition_writer (t v : UUID) (key : partition_key) (part : bytes)
    (h : (writer_of_mutation t v key part).length < 2 ^ 32) :
    frozen_mutation.partition ⟨writer_of_mutation t v key part, key⟩
      = .ok ⟨⟨part, 4 + 16 + 16 + (write_blob key).length + 4⟩⟩ := by
  have hk : key.length < 2 ^ 32 := by rw [length_writer_of_mutation] at h; omega
  have hp : part.length < 2 ^ 32 := by rw [length_writer_of_mutation] at h; omega
  simp only [frozen_mutation.partition, deserialize_writer t v key part h,
    mutation_view.partition, skip_uuid, read_blob_write _ _ _ hk, read_frame_write _ _ _ hp,
    mutation_partition_view.from_view]

theorem unfreeze_freeze_of_well_formed (m : mutation) (h : m.well_formed) :
    (freeze m).unfreeze m.schema = .ok m := by
  obtain ⟨hsz, hk⟩ := h
  have hsz2 := hsz
  rw [length_freeze] at hsz2
  have hp : (mutation_partition_serializer.write m.schema m.partition).length < 2 ^ 32 := by
    omega
  simp only [freeze, frozen_mutation.from_mutation] at hsz
  simp only [frozen_mutation.unfreeze, freeze, frozen_mutation.from_mutation,
    partition_writer _ _ _ _ hsz, accept_write m.schema m.partition _ hp hk,
    frozen_mutation.key]

/-! ## The streaming freezer -/

theorem consume_signal (f f1 : streamed_mutation_freezer) (fr : mutation_fragment)
    (r : stop_iteration) (h : f.consume fr = some (f1, r)) : r = .no := by
  cases fr with
  | partition_tombstone pt =>
    simp [streamed_mutation_freezer.consume, streamed_mutation_freezer.consume_tombstone] at h
    exact h.2.symm
  | static_row sr =>
    simp [streamed_mutation_freezer.consume, streamed_mutation_freezer.consume_static_row] at h
    exact h.2.symm
  | clustering_row cr =>
    simp [streamed_mutation_freezer.consume,
      streamed_mutation_freezer.consume_clustering_row] at h
    exact h.2.symm
  | range_tombstone_begin rtb =>
    simp only [streamed_mutation_freezer.consume,
      streamed_mutation_freezer.consume_range_tombstone_begin] at h
    split at h
    · exact absurd h (by simp)
    · simp at h; exact h.2.symm
  | range_tombstone_end rte =>
    simp only [streamed_mutation_freezer.consume,
      streamed_mutation_freezer.consume_range_tombstone_end] at h
    split at h
    · exact absurd h (by simp)
    · simp at h; exact h.2.symm

theorem consume_fragments_cons (f f1 : streamed_mutation_freezer) (fr : mutation_fragment)
    (frs : List mutation_fragment) (r : stop_iteration) (h : f.consume fr = some (f1, r)) :
    consume_fragments f (fr :: frs) = consume_fragments f1 frs := by
  have hr := consume_signal f f1 fr r h
  subst hr
  simp [consume_fragments, h]

theorem consume_fragments_append (f : streamed_mutation_freezer)
    (xs ys : List mutation_fragment) :
    consume_fragments f (xs ++ ys)
      = (consume_fragments f xs).bind (fun f1 => consume_fragments f1 ys) := by
  induction xs generalizing f with
  | nil => simp [consume_fragments]
  | cons x xs ih =>
    cases hx : f.consume x with
    | none => simp [consume_fragments, hx]
    | some pr =>
      obtain ⟨f1, r⟩ := pr
      rw [List.cons_append, consume_fragments_cons f f1 x _ r hx,
        consume_fragments_cons f f1 x _ r hx, ih]

theorem consume_fragments_rows (f : streamed_mutation_freezer) (crs : List clustering_row) :
    consume_fragments f (crs.map .clustering_row) = some { f with _crs := f._crs ++ crs } := by
  induction crs generalizing f with
  | nil => simp [consume_fragments]
  | cons cr crs ih =>
    simp [consume_fragments, streamed_mutation_freezer.consume,
      streamed_mutation_freezer.consume_clustering_row, ih]

theorem consume_fragments_pair (f : streamed_mutation_freezer) (rtb : range_tombstone_begin)
    (rte : range_tombstone_end) (frs : List mutation_fragment)
    (h : f._range_tombstone_begin = none) :
    consume_fragments f (.range_tombstone_begin rtb :: .range_tombstone_end rte :: frs)
      = consume_fragments
          { f with _rts := range_tombstone_list.apply f._schema f._rts rtb.key rtb.kind
                             rte.key rte.kind rtb.tomb } frs := by
  simp only [consume_fragments, streamed_mutation_freezer.consume,
    streamed_mutation_freezer.consume_range_tombstone_begin,
    streamed_mutation_freezer.consume_range_tombstone_end, h]

theorem consume_fragments_range_tombstones (f : streamed_mutation_freezer)
    (rts : List range_tombstone) (h : f._range_tombstone_begin = none) :
    consume_fragments f ((rts.map (fun rt =>
        [mutation_fragment.range_tombstone_begin ⟨rt.start_bound.key, rt.start_bound.kind, rt.tomb⟩,
         mutation_fragment.range_tombstone_end ⟨rt.end_bound.key, rt.end_bound.kind⟩])).flatten)
      = some { f with _rts := f._rts ++ rts } := by
  induction rts generalizing f with
  | nil => simp [consume_fragments]
  | cons rt rts ih =>
    simp only [List.map_cons, List.flatten_cons, List.cons_append, List.nil_append]
    rw [consume_fragments_pair f _ _ _ h, ih]
    · simp [range_tombstone_list.apply]
    · exact h

theorem consume_fragments_tombstone (f : streamed_mutation_freezer) (pt : tombstone)
    (frs : List mutation_fragment) :
    consume_fragments f (.partition_tombstone pt :: frs)
      = consume_fragments { f with _partition_tombstone := pt } frs := by
  simp only [consume_fragments, streamed_mutation_freezer.consume,
    streamed_mutation_freezer.consume_tombstone]

theorem consume_fragments_static_row (f : streamed_mutation_freezer) (sr : static_row)
    (frs : List mutation_fragment) :
    consume_fragments f (.static_row sr :: frs)
      = consume_fragments { f with _sr := some sr } frs := by
  simp only [consume_fragments, streamed_mutation_freezer.consume,
    streamed_mutation_freezer.consume_static_row]

theorem consume_fragments_stream (m : mutation) :
    consume_fragments (streamed_mutation_freezer.init m.schema m.key) (stream m)
      = some { _schema := m.schema, _key := m.key,
               _partition_tombstone := m.partition.partition_tombstone,
               _sr := m.partition.static_row.map static_row.mk,
               _crs := m.partition.rows,
               _rts := m.partition.row_tombstones,
               _range_tombstone_begin := none } := by
  cases hsr : m.partition.static_row with
  | none =>
    simp only [stream, hsr, Option.map_none', Option.toList_none, List.append_nil,
      List.append_assoc, List.singleton_append, List.nil_append, List.cons_append]
    rw [consume_fragments_tombstone, consume_fragments_append, consume_fragments_rows]
    simp only [Option.some_bind]
    rw [consume_fragments_range_tombstones _ _ rfl]
    simp [streamed_mutation_freezer.init]
  | some r =>
    simp only [stream, hsr, Option.map_some', Option.toList_some, List.append_assoc,
      List.singleton_append, List.nil_append, List.cons_append]
    rw [consume_fragments_tombstone, consume_fragments_static_row, consume_fragments_append,
      consume_fragments_rows]
    simp only [Option.some_bind]
    rw [consume_fragments_range_tombstones _ _ rfl]
    simp [streamed_mutation_freezer.init]

theorem consume_fragments_rows_of (f f1 : streamed_mutation_freezer)
    (frs : List mutation_fragment) (h : consume_fragments f frs = some f1) :
    f1._crs = f._crs ++ rows_of frs := by
  induction frs generalizing f with
  | nil =>
    simp only [consume_fragments, Option.some.injEq] at h
    simp [← h, rows_of]
  | cons fr frs ih =>
    cases hc : f.consume fr with
    | none => simp [consume_fragments, hc] at h
    | some pr =>
      obtain ⟨f2, r⟩ := pr
      rw [consume_fragments_cons f f2 fr frs r hc] at h
      have h2 := ih f2 h
      cases fr with
      | partition_tombstone pt =>
        simp [streamed_mutation_freezer.consume,
          streamed_mutation_freezer.consume_tombstone] at hc
        rw [h2, ← hc.1]; simp [rows_of]
      | static_row sr =>
        simp [streamed_mutation_freezer.consume,
          streamed_mutation_freezer.consume_static_row] at hc
        rw [h2, ← hc.1]; simp [rows_of]
      | clustering_row cr =>
        simp [streamed_mutation_freezer.consume,
          streamed_mutation_freezer.consume_clustering_row] at hc
        rw [h2, ← hc.1]; simp [rows_of]
      | range_tombstone_begin rtb =>
        simp only [streamed_mutation_freezer.consume,
          streamed_mutation_freezer.consume_range_tombstone_begin] at hc
        split at hc
        · exact absurd hc (by simp)
        · simp at hc; rw [h2, ← hc.1]; simp [rows_of]
      | range_tombstone_end rte =>
        simp only [streamed_mutation_freezer.consume,
          streamed_mutation_freezer.consume_range_tombstone_end] at hc
        split at hc
        · exact absurd hc (by simp)
        · simp at hc; rw [h2, ← hc.1]; simp [rows_of]

theorem consume_fragments_open (f f1 : streamed_mutation_freezer)
    (frs : List mutation_fragment) (h : consume_fragments f frs = some f1) :
    f.open_count + open_begins frs = f1.open_count := by
  induction frs generalizing f with
  | nil =>
    simp only [consume_fragments, Option.some.injEq] at h
    simp [← h, open_begins]
  | cons fr frs ih =>
    cases hc : f.consume fr with
    | none => simp [consume_fragments, hc] at h
    | some pr =>
      obtain ⟨f2, r⟩ := pr
      rw [consume_fragments_cons f f2 fr frs r hc] at h
      have h2 := ih f2 h
      cases fr with
      | partition_tombstone pt =>
        simp [streamed_mutation_freezer.consume,
          streamed_mutation_freezer.consume_tombstone] at hc
        rw [← h2, ← hc.1]; simp [open_begins, streamed_mutation_freezer.open_count]
      | static_row sr =>
        simp [streamed_mutation_freezer.consume,
          streamed_mutation_freezer.consume_static_row] at hc
        rw [← h2, ← hc.1]; simp [open_begins, streamed_mutation_freezer.open_count]
      | clustering_row cr =>
        simp [streamed_mutation_freezer.consume,
          streamed_mutation_freezer.consume_clustering_row] at hc
        rw [← h2, ← hc.1]; simp [open_begins, streamed_mutation_freezer.open_count]
      | range_tombstone_begin rtb =>
        simp only [streamed_mutation_freezer.consume,
          streamed_mutation_freezer.consume_range_tombstone_begin] at hc
        split at hc
        · exact absurd hc (by simp)
        · rename_i hb
          simp at hc; rw [← h2, ← hc.1]
          simp [open_begins, streamed_mutation_freezer.open_count, hb]; omega
      | range_tombstone_end rte =>
        simp only [streamed_mutation_freezer.consume,
          streamed_mutation_freezer.consume_range_tombstone_end] at hc
        split at hc
        · exact absurd hc (by simp)
        · rename_i b hb
          simp at hc; rw [← h2, ← hc.1]
          simp [open_begins, streamed_mutation_freezer.open_count, hb]

theorem deserialize_key_truncated (b : bytes) (hb : b.length < 2 ^ 32) (k : Nat)
    (hk : k < (write_frame b).length) :
    ∃ p, frozen_mutation.deserialize_key ((write_frame b).take k) = .fail .truncated p
      ∧ p ≤ k := by
  rw [length_write_frame] at hk
  by_cases h4 : k < 4
  · refine ⟨0, ?_, Nat.zero_le k⟩
    have hl : ¬ 4 ≤ ((write_frame b).take k).length := by
      rw [List.length_take, length_write_frame]; omega
    simp only [frozen_mutation.deserialize_key, deserialize_mutation_view, read_frame,
      read_fixed, input_cursor.read, as_input_stream, hl, if_false]
  · refine ⟨4, ?_, by omega⟩
    have h256 : b.length < 256 ^ 4 := by norm_num at hb ⊢; exact hb
    have ht : (write_frame b).take k = write_fixed 4 b.length ++ b.take (k - 4) := by
      rw [write_frame, List.take_append_eq_append_take, length_write_fixed]
      congr 1
      apply List.take_of_length_le
      rw [length_write_fixed]; omega
    have hl : ¬ b.length ≤ (b.take (k - 4)).length := by
      simp [List.length_take]; omega
    simp only [frozen_mutation.deserialize_key, deserialize_mutation_view, read_frame,
      as_input_stream, ht, read_fixed_write 4 _ _ 0 h256, hl, if_false, Nat.zero_add]

/-! ## The claims -/

set_option maxRecDepth 100000

/-- C1 (round trip): for every well-formed live mutation `m`, unfreezing
`freeze m` under the schema of `m` succeeds and returns `m` itself: the same
schema and partition key, the same partition tombstone, the same static-row
cells, the same clustering rows and the same range tombstones. -/
theorem round_trip (m : mutation) (h : m.well_formed) :
    (freeze m).unfreeze m.schema = .ok m :=
  unfreeze_freeze_of_well_formed m h

/-- Witness of C1 on the sample mutation. -/
theorem round_trip_witness :
    sample_mutation.well_formed
      ∧ (freeze sample_mutation).unfreeze sample_mutation.schema = .ok sample_mutation :=
  ⟨by unfold mutation.well_formed; decide,
   round_trip sample_mutation (by unfold mutation.well_formed; decide)⟩

/-- C2 (view agreement): for every well-formed live mutation `m` and
`f = freeze m`, `f.column_family_id()` is the id of the schema of `m`,
`f.schema_version()` is its version, `f.key(s)` is `m.key()` for every schema
`s`, and the mutation that `f.unfreeze(m.schema())` returns has that same
key. -/
theorem view_agreement (m : mutation) (h : m.well_formed) :
    (freeze m).column_family_id = .ok m.schema.id
      ∧ (freeze m).schema_version = .ok m.schema.version
      ∧ (∀ s : schema, (freeze m).key s = m.key)
      ∧ ∃ m1, (freeze m).unfreeze m.schema = .ok m1 ∧ m1.key = m.key := by
  have hsz := h.1
  simp only [freeze, frozen_mutation.from_mutation] at hsz
  refine ⟨?_, ?_, fun _ => rfl, m, unfreeze_freeze_of_well_formed m h, rfl⟩
  · exact column_family_id_writer _ _ _ _ hsz
  · exact schema_version_writer _ _ _ _ hsz

/-- Witness of C2 on the sample mutation. -/
theorem view_agreement_witness :
    sample_mutation.well_formed
      ∧ (freeze sample_mutation).column_family_id = .ok sample_schema.id
      ∧ (freeze sample_mutation).schema_version = .ok sample_schema.version :=
  have h := view_agreement sample_mutation (by unfold mutation.well_formed; decide)
  ⟨by unfold mutation.well_formed; decide, h.1, h.2.1⟩

/-- C3 (stream equivalence): for every live mutation `m`, a freezer built from
the schema and key of `m` consumes the whole fragment stream of `m` without
failing an assertion, and `consume_end_of_stream` then yields a frozen mutation
whose byte buffer equals that of `freeze m` (and whose cached key is the
same). -/
theorem stream_equivalence (m : mutation) :
    ∃ f, consume_fragments (streamed_mutation_freezer.init m.schema m.key) (stream m) = some f
      ∧ f.consume_end_of_stream._bytes = (freeze m)._bytes
      ∧ freeze_stream m.schema m.key (stream m) = some (freeze m) := by
  refine ⟨_, consume_fragments_stream m, ?_, ?_⟩
  · cases hsr : m.partition.static_row <;>
      simp [streamed_mutation_freezer.consume_end_of_stream, frozen_mutation.from_wire, freeze,
        frozen_mutation.from_mutation, serialize_mutation_fragments,
        mutation_partition_serializer.write, hsr]
  · rw [freeze_stream, consume_fragments_stream m]
    cases hsr : m.partition.static_row <;>
      simp [streamed_mutation_freezer.consume_end_of_stream, frozen_mutation.from_wire, freeze,
        frozen_mutation.from_mutation, serialize_mutation_fragments,
        mutation_partition_serializer.write, hsr]

/-- C4 (truncation safety): for every frozen buffer `b = freeze m` that fits
the 32-bit size of `bytes` and every `k < len b`, constructing a frozen
mutation from the prefix `b[:k]` alone fails with `truncated`, and the key
extraction stops at a cursor position `p ≤ k`, so that no byte at index `k` or
beyond is read. -/
theorem truncation_safety (m : mutation) (h : (freeze m)._bytes.length < 2 ^ 32) (k : Nat)
    (hk : k < (freeze m)._bytes.length) :
    frozen_mutation.from_bytes ((freeze m)._bytes.take k) = .error .truncated
      ∧ ∃ p, frozen_mutation.deserialize_key ((freeze m)._bytes.take k) = .fail .truncated p
          ∧ p ≤ k := by
  simp only [freeze, frozen_mutation.from_mutation, writer_of_mutation] at h hk ⊢
  have hb : (write_uuid m.schema.id ++ write_uuid m.schema.version ++ write_blob m.key
      ++ write_frame (mutation_partition_serializer.write m.schema m.partition)).length
      < 2 ^ 32 := by
    rw [length_write_frame] at h; omega
  obtain ⟨p, hp, hle⟩ := deserialize_key_truncated _ hb k hk
  exact ⟨by simp only [frozen_mutation.from_bytes, hp, read_result.to_except], p, hp, hle⟩

/-- Witness of C4: the sample buffer cut after 100 bytes. -/
theorem truncation_safety_witness :
    (freeze sample_mutation)._bytes.length < 2 ^ 32
      ∧ 100 < (freeze sample_mutation)._bytes.length
      ∧ frozen_mutation.from_bytes ((freeze sample_mutation)._bytes.take 100)
          = .error .truncated :=
  ⟨by decide, by decide, (truncation_safety sample_mutation (by decide) 100 (by decide)).1⟩

/-- C5 (construct from wire): for every byte sequence `b` and partition key
`pk`, the envelope `frozen_mutation(b, pk)` holds a byte buffer equal to `b`
and its `key(s)` is `pk` for every schema `s`; the buffer is not read, so this
holds whatever `b` encodes. -/
theorem from_wire_adopts (b : bytes) (pk : partition_key) :
    (frozen_mutation.from_wire b pk)._bytes = b
      ∧ ∀ s : schema, (frozen_mutation.from_wire b pk).key s = pk :=
  ⟨rfl, fun _ => rfl⟩

/-- C6: whenever a consume call of the freezer returns (fails no assertion), on
any state and any of the five fragment kinds, the signal it returns is
`stop_iteration::no`. -/
theorem consume_returns_continue (f f1 : streamed_mutation_freezer) (fr : mutation_fragment)
    (r : stop_iteration) (h : f.consume fr = some (f1, r)) : r = .no :=
  consume_signal f f1 fr r h

/-- Witness of C6: the sample freezer consuming a `range_tombstone_begin`. -/
theorem consume_returns_continue_witness :
    sample_freezer.consume (.range_tombstone_begin sample_begin)
        = some (sample_freezer_open, stop_iteration.no)
      ∧ stop_iteration.no = stop_iteration.no :=
  ⟨rfl, consume_returns_continue sample_freezer sample_freezer_open
    (.range_tombstone_begin sample_begin) .no rfl⟩

/-- C7 (range-tombstone protocol): consuming a `range_tombstone_begin` fails
its assertion exactly when a begin is already open, and otherwise leaves
exactly that begin open, returning continue; consuming a `range_tombstone_end`
fails its assertion exactly when no begin is open, and otherwise applies to
`_rts` one range tombstone built from the open begin's key, kind and tombstone
and the end's key and kind, and leaves no begin open.  Hence in every state `f`
reached from a fresh freezer by a fragment sequence, the begins of the sequence
not yet closed by an end number 0 or 1, and 1 exactly when `f` holds a begin. -/
theorem range_tombstone_protocol (f : streamed_mutation_freezer) (rtb : range_tombstone_begin)
    (rte : range_tombstone_end) :
    (f.consume_range_tombstone_begin rtb = none ↔ f._range_tombstone_begin ≠ none)
      ∧ (f._range_tombstone_begin = none →
          f.consume_range_tombstone_begin rtb
            = some ({ f with _range_tombstone_begin := some rtb }, .no))
      ∧ (f.consume_range_tombstone_end rte = none ↔ f._range_tombstone_begin = none)
      ∧ (∀ b, f._range_tombstone_begin = some b →
          f.consume_range_tombstone_end rte
            = some ({ f with
                        _rts := range_tombstone_list.apply f._schema f._rts b.key b.kind
                                  rte.key rte.kind b.tomb
                        _range_tombstone_begin := none }, .no))
      ∧ (∀ (s : schema) (key : partition_key) (frs : List mutation_fragment),
          consume_fragments (streamed_mutation_freezer.init s key) frs = some f →
            0 ≤ open_begins frs ∧ open_begins frs ≤ 1
              ∧ (open_begins frs = 1 ↔ f._range_tombstone_begin ≠ none)) := by
  refine ⟨?_, ?_, ?_, ?_, ?_⟩
  · cases hb : f._range_tombstone_begin <;>
      simp [streamed_mutation_freezer.consume_range_tombstone_begin, hb]
  · intro hb
    simp [streamed_mutation_freezer.consume_range_tombstone_begin, hb]
  · cases hb : f._range_tombstone_begin <;>
      simp [streamed_mutation_freezer.consume_range_tombstone_end, hb]
  · intro b hb
    simp [streamed_mutation_freezer.consume_range_tombstone_end, hb]
  · intro s key frs h
    have ho := consume_fragments_open _ _ frs h
    cases hb : f._range_tombstone_begin <;>
      simp [streamed_mutation_freezer.open_count, streamed_mutation_freezer.init, hb] at ho ⊢ <;>
      omega

/-- Witness of C7: the sample freezer accepts a begin and then holds it open; a
second begin fails; the matching end is applied and closes it; an end with no
begin open fails; and the one-fragment trace leaves one begin open. -/
theorem range_tombstone_protocol_witness :
    sample_freezer.consume_range_tombstone_begin sample_begin
        = some (sample_freezer_open, .no)
      ∧ sample_freezer_open.consume_range_tombstone_begin sample_begin = none
      ∧ sample_freezer_open.consume_range_tombstone_end sample_end
          = some ({ sample_freezer with
                      _rts := [⟨⟨[99, 49], .inclusive_start⟩, ⟨[99, 51], .exclusive_end⟩,
                                ⟨200, 5⟩⟩] }, .no)
      ∧ sample_freezer.consume_range_tombstone_end sample_end = none
      ∧ open_begins [.range_tombstone_begin sample_begin] = 1 :=
  ⟨(range_tombstone_protocol sample_freezer sample_begin sample_end).2.1 rfl,
   (range_tombstone_protocol sample_freezer_open sample_begin sample_end).1.mpr (by decide),
   (range_tombstone_protocol sample_freezer_open sample_begin sample_end).2.2.2.1
     sample_begin rfl,
   (range_tombstone_protocol sample_freezer sample_begin sample_end).2.2.1.mpr rfl,
   ((range_tombstone_protocol
      { streamed_mutation_freezer.init sample_schema [] with
          _range_tombstone_begin := some sample_begin } sample_begin sample_end).2.2.2.2
      sample_schema [] [.range_tombstone_begin sample_begin] rfl).2.2.mpr (by decide)⟩

/-- Counterexample to C8: the sample freezer has accumulated the row with key
`c2`; the row with key `c1` does not sort after it, yet consuming it fails no
assertion: it is appended and continue is returned. -/
theorem out_of_order_row_accepted :
    sample_freezer._crs.getLast? = some sample_row_2
      ∧ sample_freezer._schema.clustering_less sample_row_2.key sample_row_1.key = false
      ∧ sample_freezer.consume (.clustering_row sample_row_1)
          = some ({ sample_freezer with _crs := [sample_row_2, sample_row_1] }, .no) :=
  ⟨rfl, by decide, rfl⟩

/-- C8 as amended: `consume(clustering_row)` checks no order.  On every freezer
state and for every clustering row, whether or not the row sorts strictly after
the last accumulated one, the call fails no assertion, appends the row to
`_crs`, leaves every other member unchanged and returns continue. -/
theorem clustering_row_order_unchecked (f : streamed_mutation_freezer) (cr : clustering_row) :
    f.consume (.clustering_row cr) = some ({ f with _crs := f._crs ++ [cr] }, .no) :=
  rfl

/-- C9: the freezer does not reorder rows.  Each `consume(clustering_row)`
appends its row at the end of `_crs` and changes no other member; after any
sequence of consume calls that fails no assertion, whatever fragments are
interleaved, `_crs` is the initial `_crs` followed by the consumed clustering
rows in arrival order, and that list is the one `consume_end_of_stream` hands to
`serialize_mutation_fragments`. -/
theorem rows_keep_arrival_order (f f1 : streamed_mutation_freezer)
    (frs : List mutation_fragment) (h : consume_fragments f frs = some f1) :
    (∀ (g : streamed_mutation_freezer) (cr : clustering_row),
        g.consume_clustering_row cr = some ({ g with _crs := g._crs ++ [cr] }, .no))
      ∧ f1._crs = f._crs ++ rows_of frs
      ∧ f1.consume_end_of_stream._bytes
          = writer_of_mutation f1._schema.id f1._schema.version f1._key
              (serialize_mutation_fragments f1._schema f1._partition_tombstone f1._sr f1._rts
                (f._crs ++ rows_of frs)) := by
  have hr := consume_fragments_rows_of f f1 frs h
  refine ⟨fun _ _ => rfl, hr, ?_⟩
  rw [← hr]
  rfl

/-- Witness of C9: rows `c2`, `c1` arrive in that order around a range
tombstone pair and are kept in that order. -/
theorem rows_keep_arrival_order_witness :
    ∃ f1, consume_fragments (streamed_mutation_freezer.init sample_schema [])
        [.clustering_row sample_row_2, .range_tombstone_begin sample_begin,
         .range_tombstone_end sample_end, .clustering_row sample_row_1] = some f1
      ∧ f1._crs = [sample_row_2, sample_row_1] :=
  ⟨_, rfl, (rows_keep_arrival_order (streamed_mutation_freezer.init sample_schema []) _
    [.clustering_row sample_row_2, .range_tombstone_begin sample_begin,
     .range_tombstone_end sample_end, .clustering_row sample_row_1] rfl).2.1⟩

/-- C10: an unmatched begin is silently dropped.  `consume_end_of_stream` is
total (no assertion) and does not look at `_range_tombstone_begin`: from every
state it returns the same frozen mutation, bytes and key, as from the state that
differs only in having no begin open; and when the accumulated mutation is
well-formed, unfreezing the output gives exactly the accumulated mutation, whose
range tombstones are those of `_rts`, the open begin adding none. -/
theorem unmatched_begin_dropped (f : streamed_mutation_freezer) :
    f.consume_end_of_stream
        = ({ f with _range_tombstone_begin := none }).consume_end_of_stream
      ∧ (f.accumulated.well_formed →
          f.consume_end_of_stream.unfreeze f._schema = .ok f.accumulated
            ∧ f.accumulated.partition.row_tombstones = f._rts) :=
  ⟨rfl, fun h => ⟨unfreeze_freeze_of_well_formed f.accumulated h, rfl⟩⟩

/-- Witness of C10: the sample freezer with a begin left open. -/
theorem unmatched_begin_dropped_witness :
    sample_freezer_open._range_tombstone_begin = some sample_begin
      ∧ sample_freezer_open.consume_end_of_stream = sample_freezer.consume_end_of_stream
      ∧ sample_freezer_open.accumulated.well_formed
      ∧ sample_freezer_open.consume_end_of_stream.unfreeze sample_schema
          = .ok sample_freezer_open.accumulated :=
  ⟨rfl, (unmatched_begin_dropped sample_freezer_open).1,
   by unfold mutation.well_formed; decide,
   ((unmatched_begin_dropped sample_freezer_open).2
      (by unfold mutation.well_formed; decide)).1⟩

end Scylla
